import Mathlib

/-!
Verification of the NetScan probe/scheduler/sweeper core (`netscan.py`).

The network and operating system are modelled as explicit environments:
a probe's `connect_ex` call either returns an integer error code (`0` means
the TCP connection was established) or raises one of the exception classes
the source handles (`socket.gaierror`, `socket.error`/`OSError`, or any
other `Exception`).  CPython facts baked into the embedding, each noted at
its use site: `socket.connect_ex` raises `OverflowError` for a port outside
[0, 65535]; `socket.settimeout` raises `ValueError` for a negative timeout.
Python floats (timeouts) are modelled as rationals; Python ints as `Int`.
Fallible Python code is modelled as `Except`; the `try/except` blocks of the
source become explicit matches on the raised exception class.
-/

set_option maxRecDepth 100000

namespace NetScan

/-- Exception classes distinguished by the handlers in `netscan.py`:
`socket.gaierror` (name-resolution failure), `socket.error`/`OSError`,
`ValueError` (from `settimeout` on a negative value), `OverflowError`
(from `connect_ex` on an out-of-range port), and any other `Exception`. -/
inductive PyExc where
  | gaierror
  | oserror
  | valueError
  | overflowError
  | other
deriving DecidableEq

/-- What one `connect_ex((host, port))` call does when the port is in range:
either it returns the error code `c` (`0` = connection established), or it
raises `socket.gaierror`, another `socket.error`/`OSError`, or some other
`Exception`.  This is the nondeterministic environment of a single probe,
made explicit. -/
inductive RawConnect where
  | code (c : Int)
  | gaierror
  | oserror
  | otherError
deriving DecidableEq

/-- True when the `connect_ex` call returns an error code rather than
raising an exception. -/
def RawConnect.isCode : RawConnect → Bool
  | RawConnect.code _ => true
  | _ => false

/-- Environment a call of `scan_port` runs in: whether
`socket.socket(AF_INET, SOCK_STREAM)` itself raises `OSError` (descriptor
exhaustion), and the behaviour of `connect_ex` per (host, port). -/
structure SockEnv where
  createFails : Bool
  connect : String → Int → RawConnect

/-- Fate of the socket a probe creates: never created (creation raised),
created but never closed on the taken exit path, or closed. -/
inductive SockFate where
  | notCreated
  | leaked
  | closed
deriving DecidableEq

/-- Result of running the body of `scan_port` (lines 53-58 of netscan.py):
the value produced or exception raised, together with what happened to
the socket on that path. -/
structure ProbeRun where
  result : Except PyExc Bool
  sock : SockFate

/-- Body of `scan_port` (netscan.py lines 53-58), before its exception
handlers:

  sock = socket.socket(socket.AF_INET, socket.SOCK_STREAM)   -- may raise OSError
  sock.settimeout(timeout)        -- raises ValueError if timeout < 0 (CPython)
  result = sock.connect_ex((host, port))
                                  -- raises OverflowError if port not in [0, 65535] (CPython);
                                  -- may raise gaierror / OSError / other per the environment
  sock.close()
  return result == 0

`sock.close()` is on the straight-line path only: any raise skips it, so
the socket is left open (`SockFate.leaked`) on every exception path after
creation succeeded. -/
def scan_portBody (env : SockEnv) (host : String) (port : Int) (timeout : ℚ) : ProbeRun :=
  if env.createFails then
    ProbeRun.mk (Except.error PyExc.oserror) SockFate.notCreated
  else if timeout < 0 then
    ProbeRun.mk (Except.error PyExc.valueError) SockFate.leaked
  else if port < 0 ∨ 65535 < port then
    ProbeRun.mk (Except.error PyExc.overflowError) SockFate.leaked
  else
    match env.connect host port with
    | RawConnect.code c => ProbeRun.mk (Except.ok (c == 0)) SockFate.closed
    | RawConnect.gaierror => ProbeRun.mk (Except.error PyExc.gaierror) SockFate.leaked
    | RawConnect.oserror => ProbeRun.mk (Except.error PyExc.oserror) SockFate.leaked
    | RawConnect.otherError => ProbeRun.mk (Except.error PyExc.other) SockFate.leaked

/-- `NetScan.scan_port` (netscan.py lines 50-64): the body above wrapped in
its three handlers,

  except socket.gaierror: return False
  except socket.error:    return False
  except Exception:       return False

every raised `Exception` subclass is folded into `False`. -/
def scan_port (env : SockEnv) (host : String) (port : Int) (timeout : ℚ) :
    Except PyExc Bool :=
  match (scan_portBody env host port timeout).result with
  | Except.ok b => Except.ok b
  | Except.error PyExc.gaierror => Except.ok false
  | Except.error PyExc.oserror => Except.ok false
  | Except.error _ => Except.ok false

/-- Fate of the socket created by a `scan_port` call (the handlers do not
touch the socket, so the fate is that of the body's taken path). -/
def scan_portSock (env : SockEnv) (host : String) (port : Int) (timeout : ℚ) :
    SockFate :=
  (scan_portBody env host port timeout).sock

/-- Python dict assignment `d[k] = v` on an insertion-ordered dictionary
(`results[port] = ...`, netscan.py lines 77 and 79): if the key is present
its value is overwritten in place (Python dicts keep the original insertion
position), otherwise the pair is appended. -/
def dictInsert (d : List (Int × Bool)) (k : Int) (v : Bool) : List (Int × Bool) :=
  if d.any (fun kv => kv.1 == k) then
    d.map (fun kv => if kv.1 == k then (k, v) else kv)
  else d ++ [(k, v)]

/-- Keys of the modelled dict, in insertion order. -/
def dictKeys (d : List (Int × Bool)) : List Int :=
  d.map Prod.fst

/-- Value delivered by `future.result()` for the future probing `port`,
after the handler of netscan.py lines 76-79: the Boolean `scan_port`
produced, or `False` if an exception escaped the dispatched probe
(`except Exception: results[port] = False`). -/
def futureResult (env : SockEnv) (host : String) (timeout : ℚ) (port : Int) : Bool :=
  match scan_port env host port timeout with
  | Except.ok b => b
  | Except.error _ => false

/-- `NetScan.scan_ports` (netscan.py lines 67-81): one future is submitted
per element of `ports` (duplicates included); `as_completed` yields the
futures in a nondeterministic completion order, modelled here as the
explicit argument `order`, a permutation of the submitted `ports` list;
each completed future writes `results[port] = future.result()` (or `False`
on an escaped exception) into the shared dict. -/
def scan_ports (env : SockEnv) (host : String) (timeout : ℚ) (order : List Int) :
    List (Int × Bool) :=
  order.foldl (fun d port => dictInsert d port (futureResult env host timeout port)) []

/-- Environment one `check_host` closure runs in: whether `socket.socket`
raises, and what `connect_ex` does for each burst port on this address. -/
structure HostEnv where
  createFails : Bool
  connect : Int → RawConnect

/-- The fixed burst of common ports `[80, 443, 22, 445]` probed per host by
`check_host` (netscan.py line 153). -/
def burstPorts : List Int := [80, 443, 22, 445]

/-- Result of one `check_host` run: the returned value (`ip` or `None`),
the number of `connect_ex` calls made, and the socket's fate. -/
structure HostRun where
  alive : Option String
  probes : Nat
  sock : SockFate

/-- The port loop of `check_host` (netscan.py lines 153-158), carrying the
count of `connect_ex` calls made so far:

  for port in [80, 443, 22, 445]:
      result = sock.connect_ex((ip, port))
      if result == 0:
          sock.close()
          return ip
  sock.close()

a raise inside `connect_ex` lands in the bare `except: pass` of line 159,
skipping both `sock.close()` calls, and falls through to `return None`. -/
def check_hostLoop (env : HostEnv) (ip : String) : List Int → Nat → HostRun
  | [], n => HostRun.mk none n SockFate.closed
  | p :: rest, n =>
    match env.connect p with
    | RawConnect.code c =>
      if c == 0 then HostRun.mk (some ip) (n + 1) SockFate.closed
      else check_hostLoop env ip rest (n + 1)
    | _ => HostRun.mk none (n + 1) SockFate.leaked

/-- `check_host` (netscan.py lines 148-161): socket creation and
`settimeout` (raises `ValueError` for a negative timeout, caught by the
bare `except`), then the burst loop. -/
def check_host (env : HostEnv) (ip : String) (timeout : ℚ) : HostRun :=
  if env.createFails then HostRun.mk none 0 SockFate.notCreated
  else if timeout < 0 then HostRun.mk none 0 SockFate.leaked
  else check_hostLoop env ip burstPorts 0

/-- Candidate last octets enumerated by `range(1, 255)` (netscan.py
line 146): the integers 1 .. 254. -/
def hostOctets : List Nat := List.range' 1 254

/-- The address string `f"{network_prefix}.{i}"` (netscan.py line 146). -/
def ipStr (net : String) (i : Nat) : String :=
  net ++ "." ++ Nat.repr i

/-- Environment of one `scan_network` run: the `HostEnv` each candidate
address's `check_host` sees, indexed by last octet. -/
structure NetEnv where
  host : Nat → HostEnv

/-- Whether `check_host` declares the candidate with last octet `i` alive
(returns its address rather than `None`). -/
def hostAlive (env : NetEnv) (net : String) (timeout : ℚ) (i : Nat) : Bool :=
  ((check_host (env.host i) (ipStr net i) timeout).alive).isSome

/-- Python's `int` applied to the decimal digit string of a natural number:
used to give meaning to the sort key `int(x.split('.')[-1])` of netscan.py
line 174. -/
def decodeDigits (s : String) : Nat :=
  s.data.foldl (fun a c => 10 * a + (c.toNat - 48)) 0

/-- The last octets of the list `scan_network` returns (netscan.py
lines 165-174): `active_hosts` collects, in completion order (`order`, a
permutation of `hostOctets`), each candidate whose `check_host` returned
its address; line 174 then sorts by `int(x.split('.')[-1])`.  Since
`Nat.repr i` contains no dot, `x.split('.')[-1]` of `ipStr net i` is
exactly `Nat.repr i` and the key is `i`, so the sort (Python's stable
`sorted`) is modelled as a stable sort of the octets by `≤`. -/
def scan_networkOctets (env : NetEnv) (net : String) (timeout : ℚ)
    (order : List Nat) : List Nat :=
  List.insertionSort (fun a b => a ≤ b) (order.filter (hostAlive env net timeout))

/-- `NetScan.scan_network` (netscan.py lines 140-174): the sorted live-host
address list, rendered through `ipStr`. -/
def scan_network (env : NetEnv) (net : String) (timeout : ℚ)
    (order : List Nat) : List String :=
  (scan_networkOctets env net timeout order).map (ipStr net)

end NetScan

namespace NetScan

/-- C1: For every valid target string, port in [0, 65535] and timeout > 0,
`scan_port` returns `Open` (`True`) iff the TCP connection is successfully
established (socket creation succeeded and `connect_ex` returned 0); every
failure mode yields `False`, and the probe never raises: the returned value
is always `Except.ok`. -/
theorem scan_port_open_iff_connect (env : SockEnv) (host : String) (port : Int)
    (timeout : ℚ) (hlo : 0 ≤ port) (hhi : port ≤ 65535) (ht : 0 < timeout) :
    ∃ b : Bool, scan_port env host port timeout = Except.ok b ∧
      (b = true ↔ env.createFails = false ∧ env.connect host port = RawConnect.code 0) := by
  unfold scan_port scan_portBody
  have hts : ¬ (timeout < 0) := not_lt.mpr (le_of_lt ht)
  have hps : ¬ (port < 0 ∨ 65535 < port) := by
    push_neg
    exact ⟨hlo, hhi⟩
  cases hcf : env.createFails with
  | true =>
    refine ⟨false, by simp [hcf], ?_⟩
    simp [hcf]
  | false =>
    cases hcn : env.connect host port with
    | code c =>
      refine ⟨(c == 0), ?_, ?_⟩
      · simp [hcf, hts, hps, hcn]
      · simp [hcn, beq_iff_eq]
    | gaierror => exact ⟨false, by simp [hcf, hts, hps, hcn], by simp [hcn]⟩
    | oserror => exact ⟨false, by simp [hcf, hts, hps, hcn], by simp [hcn]⟩
    | otherError => exact ⟨false, by simp [hcf, hts, hps, hcn], by simp [hcn]⟩

/-- Witness for C1 at a concrete input: environment in which the connection
to 127.0.0.1:80 succeeds, timeout 1. -/
theorem scan_port_open_iff_connect_witness :
    (0 : Int) ≤ 80 ∧ (80 : Int) ≤ 65535 ∧ (0 : ℚ) < 1 ∧
    ∃ b : Bool,
      scan_port (SockEnv.mk false (fun _ _ => RawConnect.code 0)) "127.0.0.1" 80 1 =
        Except.ok b ∧
      (b = true ↔ (SockEnv.mk false (fun _ _ => RawConnect.code 0)).createFails = false ∧
        (SockEnv.mk false (fun _ _ => RawConnect.code 0)).connect "127.0.0.1" 80 =
          RawConnect.code 0) :=
  ⟨by decide, by decide, by norm_num,
    scan_port_open_iff_connect _ "127.0.0.1" 80 1 (by decide) (by decide) (by norm_num)⟩

end NetScan

namespace NetScan

/-- C10: `scan_port` is total at its public interface: for every host
string, every integer port (negative or above 65535 included) and every
timeout it returns `Except.ok` of a Boolean (never an uncaught exception),
and an out-of-range port is folded into the negative outcome `False`. -/
theorem scan_port_total (env : SockEnv) (host : String) (port : Int) (timeout : ℚ) :
    (∃ b : Bool, scan_port env host port timeout = Except.ok b) ∧
    ((port < 0 ∨ 65535 < port) → scan_port env host port timeout = Except.ok false) := by
  constructor
  · rcases h : (scan_portBody env host port timeout).result with e | b
    · cases e <;> exact ⟨false, by simp [scan_port, h]⟩
    · exact ⟨b, by simp [scan_port, h]⟩
  · intro hout
    unfold scan_port scan_portBody
    by_cases hcf : env.createFails
    · simp [hcf]
    · by_cases hts : timeout < 0
      · simp [hcf, hts]
      · simp [hcf, hts, hout]

/-- Witness for C10's out-of-range clause at the concrete port 70000. -/
theorem scan_port_total_witness :
    ((70000 : Int) < 0 ∨ (65535 : Int) < 70000) ∧
    scan_port (SockEnv.mk false (fun _ _ => RawConnect.code 0)) "example.com" 70000 1 =
      Except.ok false :=
  ⟨Or.inr (by decide),
    (scan_port_total (SockEnv.mk false (fun _ _ => RawConnect.code 0))
      "example.com" 70000 1).2 (Or.inr (by decide))⟩

/-- C6 counterexample: at the malformed port 70000 (an input error per the
claim), `scan_port` does not reject the input or surface an error; the
`OverflowError` that `connect_ex` raises is swallowed by `except Exception`
and the call returns the ordinary `ClosedOrFiltered` outcome
`Except.ok false`, silently coercing the input error. -/
theorem scan_port_no_input_rejection :
    scan_port (SockEnv.mk false (fun _ _ => RawConnect.code 111)) "127.0.0.1" 70000 2 =
      Except.ok false := by
  have hout : (70000 : Int) < 0 ∨ (65535 : Int) < 70000 := Or.inr (by decide)
  have h2 : ¬ ((2 : ℚ) < 0) := by norm_num
  simp [scan_port, scan_portBody, h2, hout]

/-- C6 (amended): no input validation occurs; every input error — a port
outside [0, 65535] or a negative timeout — is silently coerced by the
exception handlers into the `ClosedOrFiltered` outcome `False`, for every
environment and host, rather than rejected or surfaced. -/
theorem scan_port_input_errors_coerced (env : SockEnv) (host : String) (port : Int)
    (timeout : ℚ) (h : port < 0 ∨ 65535 < port ∨ timeout < 0) :
    scan_port env host port timeout = Except.ok false := by
  unfold scan_port scan_portBody
  by_cases hcf : env.createFails
  · simp [hcf]
  · by_cases hts : timeout < 0
    · simp [hcf, hts]
    · have hout : port < 0 ∨ 65535 < port := by
        rcases h with h | h | h
        · exact Or.inl h
        · exact Or.inr h
        · exact absurd h hts
      simp [hcf, hts, hout]

/-- Witness for the amended C6 at the concrete port 70000. -/
theorem scan_port_input_errors_coerced_witness :
    ((70000 : Int) < 0 ∨ (65535 : Int) < 70000 ∨ (2 : ℚ) < 0) ∧
    scan_port (SockEnv.mk false (fun _ _ => RawConnect.code 0)) "localhost" 70000 2 =
      Except.ok false :=
  ⟨Or.inr (Or.inl (by decide)),
    scan_port_input_errors_coerced (SockEnv.mk false (fun _ _ => RawConnect.code 0))
      "localhost" 70000 2 (Or.inr (Or.inl (by decide)))⟩

/-- C5 (code bug): the sockets are not closed on every exit path.  When
`connect_ex` raises `socket.gaierror` (an unresolvable host name), the
handler of `scan_port` returns `False` without executing `sock.close()`
(netscan.py line 57 is skipped by the raise and there is no
`try/finally`), leaving the socket open; `check_host` likewise leaks its
socket when `connect_ex` raises inside its port loop (the bare
`except: pass` of line 159 skips both `sock.close()` calls). -/
theorem scan_port_socket_leaked_on_gaierror :
    scan_portSock (SockEnv.mk false (fun _ _ => RawConnect.gaierror))
        "unresolvable.invalid" 80 2 = SockFate.leaked ∧
    scan_port (SockEnv.mk false (fun _ _ => RawConnect.gaierror))
        "unresolvable.invalid" 80 2 = Except.ok false ∧
    (check_host (HostEnv.mk false (fun _ => RawConnect.gaierror)) "10.0.0.1" 2).sock =
      SockFate.leaked :=
  ⟨rfl, rfl, rfl⟩

/-- Key list of a dict after one assignment `d[k] = v`: unchanged when the
key was already present, extended by `k` at the end otherwise. -/
theorem dictKeys_dictInsert (d : List (Int × Bool)) (k : Int) (v : Bool) :
    dictKeys (dictInsert d k v) =
      if k ∈ dictKeys d then dictKeys d else dictKeys d ++ [k] := by
  unfold dictInsert dictKeys
  by_cases hk : k ∈ d.map Prod.fst
  · have hany : d.any (fun kv => kv.1 == k) = true := by
      rw [List.any_eq_true]
      rcases List.mem_map.mp hk with ⟨kv, hkv, hfst⟩
      exact ⟨kv, hkv, by simp [hfst]⟩
    rw [if_pos hany, if_pos hk, List.map_map]
    apply List.map_congr_left
    intro kv hkv
    by_cases hf : kv.1 = k
    · simp [Function.comp, beq_iff_eq, hf]
    · simp [Function.comp, beq_iff_eq, hf]
  · have hany : d.any (fun kv => kv.1 == k) = false := by
      rw [List.any_eq_false]
      intro kv hkv
      simp only [beq_iff_eq]
      intro hf
      exact hk (List.mem_map.mpr ⟨kv, hkv, hf⟩)
    rw [if_neg (by simp [hany]), if_neg hk, List.map_append]
    rfl

/-- Membership in the key list after one assignment. -/
theorem mem_dictKeys_dictInsert (d : List (Int × Bool)) (k : Int) (v : Bool) (p : Int) :
    p ∈ dictKeys (dictInsert d k v) ↔ p ∈ dictKeys d ∨ p = k := by
  rw [dictKeys_dictInsert]
  by_cases hk : k ∈ dictKeys d
  · rw [if_pos hk]
    constructor
    · exact Or.inl
    · rintro (h | rfl)
      · exact h
      · exact hk
  · rw [if_neg hk]
    simp [List.mem_append]

/-- Assignment keeps the key list duplicate-free. -/
theorem nodup_dictKeys_dictInsert (d : List (Int × Bool)) (k : Int) (v : Bool)
    (h : (dictKeys d).Nodup) : (dictKeys (dictInsert d k v)).Nodup := by
  rw [dictKeys_dictInsert]
  by_cases hk : k ∈ dictKeys d
  · rwa [if_pos hk]
  · rw [if_neg hk, List.nodup_append]
    refine ⟨h, List.nodup_singleton k, ?_⟩
    intro x hx hx'
    rw [List.mem_singleton] at hx'
    exact hk (hx' ▸ hx)

/-- Every entry of a dict after one assignment is an old entry or the
assigned pair. -/
theorem dictInsert_entry_sub (d : List (Int × Bool)) (k : Int) (v : Bool)
    (q : Int) (b : Bool) (h : (q, b) ∈ dictInsert d k v) :
    (q, b) ∈ d ∨ (q = k ∧ b = v) := by
  unfold dictInsert at h
  by_cases hany : d.any (fun kv => kv.1 == k) = true
  · rw [if_pos hany] at h
    rcases List.mem_map.mp h with ⟨kv, hkv, hf⟩
    by_cases hk : kv.1 = k
    · right
      rw [if_pos (by simp [beq_iff_eq, hk])] at hf
      exact ⟨(congrArg Prod.fst hf).symm, (congrArg Prod.snd hf).symm⟩
    · left
      rw [if_neg (by simp [beq_iff_eq, hk])] at hf
      exact hf ▸ hkv
  · rw [if_neg hany] at h
    rcases List.mem_append.mp h with h | h
    · exact Or.inl h
    · right
      have he : (q, b) = (k, v) := List.mem_singleton.mp h
      exact ⟨congrArg Prod.fst he, congrArg Prod.snd he⟩

/-- Invariant of the `as_completed` collection loop: the key list of the
result dict stays duplicate-free. -/
theorem scan_ports_fold_nodup (env : SockEnv) (host : String) (timeout : ℚ) :
    ∀ (l : List Int) (d : List (Int × Bool)), (dictKeys d).Nodup →
      (dictKeys (l.foldl
        (fun d p => dictInsert d p (futureResult env host timeout p)) d)).Nodup
  | [], _, h => h
  | p :: l, d, h => by
      simp only [List.foldl_cons]
      exact scan_ports_fold_nodup env host timeout l _
        (nodup_dictKeys_dictInsert d p _ h)

/-- Invariant of the collection loop: a key is present after the loop iff
it was present before or its future completed in the loop. -/
theorem scan_ports_fold_mem (env : SockEnv) (host : String) (timeout : ℚ) :
    ∀ (l : List Int) (d : List (Int × Bool)) (p : Int),
      p ∈ dictKeys (l.foldl
          (fun d q => dictInsert d q (futureResult env host timeout q)) d) ↔
        p ∈ dictKeys d ∨ p ∈ l
  | [], d, p => by simp
  | q :: l, d, p => by
      simp only [List.foldl_cons]
      rw [scan_ports_fold_mem env host timeout l _ p, mem_dictKeys_dictInsert]
      simp only [List.mem_cons]
      tauto

/-- Invariant of the collection loop: every entry of the result dict holds
the value its port's future delivered. -/
theorem scan_ports_fold_entry (env : SockEnv) (host : String) (timeout : ℚ) :
    ∀ (l : List Int) (d : List (Int × Bool)),
      (∀ q b, (q, b) ∈ d → b = futureResult env host timeout q) →
      ∀ q b,
        (q, b) ∈ l.foldl (fun d r => dictInsert d r (futureResult env host timeout r)) d →
        b = futureResult env host timeout q
  | [], _, hd, q, b, h => hd q b h
  | r :: l, d, hd, q, b, h => by
      simp only [List.foldl_cons] at h
      refine scan_ports_fold_entry env host timeout l _ ?_ q b h
      intro q' b' h'
      rcases dictInsert_entry_sub d r _ q' b' h' with h'' | ⟨he, hv⟩
      · exact hd q' b' h''
      · rw [hv, he]

/-- Looking up a key of a duplicate-free dict finds its unique entry. -/
theorem lookup_of_entry : ∀ (d : List (Int × Bool)) (p : Int) (b : Bool),
    (dictKeys d).Nodup → (p, b) ∈ d → List.lookup p d = some b
  | [], _, _, _, h => absurd h (by simp)
  | (k', v') :: d, p, b, hnd, h => by
      simp only [dictKeys, List.map_cons, List.nodup_cons] at hnd
      rcases List.mem_cons.mp h with he | h'
      · have hp : p = k' := congrArg Prod.fst he
        have hb : b = v' := congrArg Prod.snd he
        simp [List.lookup, hp, hb]
      · have hpk : p ≠ k' := by
          intro he'
          have hin : p ∈ d.map Prod.fst := List.mem_map.mpr ⟨(p, b), h', rfl⟩
          exact hnd.1 (he' ▸ hin)
        have hrec := lookup_of_entry d p b (by simpa [dictKeys] using hnd.2) h'
        have hbeq : (p == k') = false := beq_eq_false_iff_ne.mpr hpk
        simp [List.lookup, hbeq, hrec]

/-- C2: for every target, port list and config, the result of `scan_ports`
contains exactly one entry per distinct requested port, whatever the
completion order: the key list is duplicate-free, and a port is a key iff
it was requested — duplicates collapse, no requested port is missing (even
when its probe errored), and no unrequested port appears. -/
theorem scan_ports_one_entry_per_port (env : SockEnv) (host : String) (timeout : ℚ)
    (ports order : List Int) (hperm : order.Perm ports) :
    (dictKeys (scan_ports env host timeout order)).Nodup ∧
    ∀ p : Int, p ∈ dictKeys (scan_ports env host timeout order) ↔ p ∈ ports := by
  constructor
  · exact scan_ports_fold_nodup env host timeout order [] (by simp [dictKeys])
  · intro p
    rw [scan_ports, scan_ports_fold_mem]
    simp only [dictKeys, List.map_nil, List.not_mem_nil, false_or]
    exact hperm.mem_iff

/-- Witness for C2: ports `[80, 443, 80]` probed in completion order
`[443, 80, 80]` against an all-open environment. -/
theorem scan_ports_one_entry_per_port_witness :
    List.Perm [443, 80, 80] [80, 443, 80] ∧
    ((dictKeys (scan_ports (SockEnv.mk false (fun _ _ => RawConnect.code 0))
        "127.0.0.1" 1 [443, 80, 80])).Nodup ∧
      ∀ p : Int, p ∈ dictKeys (scan_ports (SockEnv.mk false (fun _ _ => RawConnect.code 0))
        "127.0.0.1" 1 [443, 80, 80]) ↔ p ∈ [(80 : Int), 443, 80]) :=
  ⟨by decide,
    scan_ports_one_entry_per_port (SockEnv.mk false (fun _ _ => RawConnect.code 0))
      "127.0.0.1" 1 [80, 443, 80] [443, 80, 80] (by decide)⟩

/-- C3: the concurrent scheduler is pointwise a batch of independent
probes: for every distinct requested port `p`, whatever the completion
order, the result maps `p` to exactly the outcome of the single call
`scan_port(target, p, timeout)`; an exception escaping a dispatched probe
would be recorded as `False` (`futureResult`) rather than aborting the
batch. -/
theorem scan_ports_pointwise (env : SockEnv) (host : String) (timeout : ℚ)
    (ports order : List Int) (hperm : order.Perm ports) (p : Int) (hp : p ∈ ports)
    (b : Bool) (hb : scan_port env host p timeout = Except.ok b) :
    List.lookup p (scan_ports env host timeout order) = some b := by
  have hfr : futureResult env host timeout p = b := by
    unfold futureResult
    rw [hb]
  have hnd : (dictKeys (scan_ports env host timeout order)).Nodup :=
    scan_ports_fold_nodup env host timeout order [] (by simp [dictKeys])
  have hmem : p ∈ dictKeys (scan_ports env host timeout order) := by
    rw [scan_ports, scan_ports_fold_mem]
    exact Or.inr (hperm.mem_iff.mpr hp)
  rw [dictKeys] at hmem
  rcases List.mem_map.mp hmem with ⟨⟨q, b'⟩, hqb, hq⟩
  have hq' : q = p := hq
  subst hq'
  have hb' : b' = futureResult env host timeout q := by
    refine scan_ports_fold_entry env host timeout order [] ?_ q b' ?_
    · intro q' b'' h''
      exact absurd h'' (by simp)
    · rw [scan_ports] at hqb
      exact hqb
  have hl := lookup_of_entry (scan_ports env host timeout order) q b' hnd hqb
  rw [hl, hb', hfr]

/-- Witness for C3: port 80 requested once, environment in which the
connection succeeds. -/
theorem scan_ports_pointwise_witness :
    List.Perm [(80 : Int)] [80] ∧ (80 : Int) ∈ [(80 : Int)] ∧
    scan_port (SockEnv.mk false (fun _ _ => RawConnect.code 0)) "127.0.0.1" 80 1 =
      Except.ok true ∧
    List.lookup (80 : Int) (scan_ports (SockEnv.mk false (fun _ _ => RawConnect.code 0))
      "127.0.0.1" 1 [80]) = some true :=
  ⟨List.Perm.refl _, by decide, rfl,
    scan_ports_pointwise (SockEnv.mk false (fun _ _ => RawConnect.code 0)) "127.0.0.1" 1
      [80] [80] (List.Perm.refl _) 80 (by decide) true rfl⟩

/-- When no probe of the scanned tail raises, the burst loop declares the
host alive iff one of the scanned ports' connect code is 0. -/
theorem check_hostLoop_alive_iff (env : HostEnv) (ip : String) :
    ∀ (l : List Int) (n : Nat), (∀ p ∈ l, (env.connect p).isCode = true) →
      ((check_hostLoop env ip l n).alive = some ip ↔
        ∃ p ∈ l, env.connect p = RawConnect.code 0)
  | [], n, _ => by simp [check_hostLoop]
  | p :: l, n, hexc => by
      rcases hcp : env.connect p with c | _ | _ | _
      · by_cases hc : c = 0
        · subst hc
          simp only [check_hostLoop, hcp, beq_self_eq_true, if_true]
          constructor
          · intro _
            exact ⟨p, List.mem_cons_self p l, hcp⟩
          · intro _
            trivial
        · have hbeq : (c == 0) = false := by simpa using hc
          simp only [check_hostLoop, hcp, hbeq, Bool.false_eq_true, if_false]
          rw [check_hostLoop_alive_iff env ip l (n + 1)
            (fun q hq => hexc q (List.mem_cons_of_mem p hq))]
          constructor
          · rintro ⟨q, hq, hq0⟩
            exact ⟨q, List.mem_cons_of_mem p hq, hq0⟩
          · rintro ⟨q, hq, hq0⟩
            rcases List.mem_cons.mp hq with rfl | hq'
            · rw [hcp] at hq0
              injection hq0 with hc0
              exact absurd hc0 hc
            · exact ⟨q, hq', hq0⟩
      all_goals
        exact absurd (hexc p (List.mem_cons_self p l)) (by simp [RawConnect.isCode, hcp])

/-- The burst loop stops at the first port whose connect succeeds: with a
run of failing codes before it, the loop returns the address after exactly
the probes up to and including that port. -/
theorem check_hostLoop_shortCircuit (env : HostEnv) (ip : String) :
    ∀ (pre : List Int) (p : Int) (post : List Int) (n : Nat),
      (∀ q ∈ pre, ∃ c, env.connect q = RawConnect.code c ∧ c ≠ 0) →
      env.connect p = RawConnect.code 0 →
      check_hostLoop env ip (pre ++ p :: post) n =
        HostRun.mk (some ip) (n + pre.length + 1) SockFate.closed
  | [], p, post, n, _, hp => by
      simp [check_hostLoop, hp]
  | q :: pre, p, post, n, hpre, hp => by
      rcases hpre q (List.mem_cons_self q pre) with ⟨c, hcq, hc⟩
      have hbeq : (c == 0) = false := by simpa using hc
      simp only [List.cons_append, check_hostLoop, hcq, hbeq, Bool.false_eq_true, if_false]
      rw [List.append_eq]
      rw [check_hostLoop_shortCircuit env ip pre p post (n + 1)
        (fun r hr => hpre r (List.mem_cons_of_mem q hr)) hp]
      have harith : n + 1 + pre.length + 1 = n + (q :: pre).length + 1 := by
        simp [List.length_cons]
        omega
      rw [harith]

/-- C7 counterexample: an environment in which the probe of burst port 80
raises while port 443 would accept the connection.  Port 443 of the
candidate is `Open`, yet `check_host` returns `None`: the exception raised
on port 80 lands in the bare `except: pass` and aborts the whole burst, so
"included iff at least one burst probe returns Open" fails as stated. -/
theorem check_host_misses_open_port :
    (check_host (HostEnv.mk false
        (fun p => if p == 80 then RawConnect.gaierror else RawConnect.code 0))
      "192.168.1.5" 1).alive = none ∧
    (443 : Int) ∈ burstPorts ∧
    (HostEnv.mk false
        (fun p => if p == 80 then RawConnect.gaierror else RawConnect.code 0)).connect 443 =
      RawConnect.code 0 :=
  ⟨rfl, by decide, rfl⟩

/-- C7 (amended): provided socket creation succeeds, the timeout is
nonnegative and no burst probe raises, a candidate is declared alive iff
at least one of the burst ports 80, 443, 22, 445 accepts the TCP
connection; and the per-host check short-circuits: it returns alive at the
first port that connects, having made exactly the connect calls up to and
including that port, without probing the remaining burst ports. -/
theorem check_host_alive_iff (env : HostEnv) (ip : String) (timeout : ℚ)
    (hcf : env.createFails = false) (ht : 0 ≤ timeout)
    (hexc : ∀ p ∈ burstPorts, (env.connect p).isCode = true) :
    ((check_host env ip timeout).alive = some ip ↔
      ∃ p ∈ burstPorts, env.connect p = RawConnect.code 0) ∧
    ∀ (pre : List Int) (p : Int) (post : List Int),
      burstPorts = pre ++ p :: post →
      (∀ q ∈ pre, env.connect q ≠ RawConnect.code 0) →
      env.connect p = RawConnect.code 0 →
      check_host env ip timeout = HostRun.mk (some ip) (pre.length + 1) SockFate.closed := by
  have hts : ¬ (timeout < 0) := not_lt.mpr ht
  constructor
  · unfold check_host
    rw [if_neg (by simp [hcf]), if_neg hts]
    exact check_hostLoop_alive_iff env ip burstPorts 0 hexc
  · intro pre p post hsplit hpre hp
    unfold check_host
    rw [if_neg (by simp [hcf]), if_neg hts, hsplit]
    have hpre' : ∀ q ∈ pre, ∃ c, env.connect q = RawConnect.code c ∧ c ≠ 0 := by
      intro q hq
      have h1 := hexc q (by rw [hsplit]; exact List.mem_append_left _ hq)
      rcases hcq : env.connect q with c | _ | _ | _
      · exact ⟨c, rfl, fun hc => hpre q hq (by rw [hcq, hc])⟩
      all_goals rw [hcq] at h1
      all_goals simp [RawConnect.isCode] at h1
    rw [check_hostLoop_shortCircuit env ip pre p post 0 hpre' hp]
    norm_num

/-- Witness for the amended C7: an all-open environment; the short-circuit
clause instantiated with the split `[] ++ 80 :: [443, 22, 445]`. -/
theorem check_host_alive_iff_witness :
    ((HostEnv.mk false (fun _ => RawConnect.code 0)).createFails = false) ∧
    ((0 : ℚ) ≤ 1) ∧
    (∀ p ∈ burstPorts,
      ((HostEnv.mk false (fun _ => RawConnect.code 0)).connect p).isCode = true) ∧
    (((check_host (HostEnv.mk false (fun _ => RawConnect.code 0)) "192.168.1.7" 1).alive =
        some "192.168.1.7" ↔
      ∃ p ∈ burstPorts,
        (HostEnv.mk false (fun _ => RawConnect.code 0)).connect p = RawConnect.code 0) ∧
    ∀ (pre : List Int) (p : Int) (post : List Int),
      burstPorts = pre ++ p :: post →
      (∀ q ∈ pre,
        (HostEnv.mk false (fun _ => RawConnect.code 0)).connect q ≠ RawConnect.code 0) →
      (HostEnv.mk false (fun _ => RawConnect.code 0)).connect p = RawConnect.code 0 →
      check_host (HostEnv.mk false (fun _ => RawConnect.code 0)) "192.168.1.7" 1 =
        HostRun.mk (some "192.168.1.7") (pre.length + 1) SockFate.closed) :=
  ⟨rfl, by norm_num, by decide,
    check_host_alive_iff (HostEnv.mk false (fun _ => RawConnect.code 0)) "192.168.1.7" 1
      rfl (by norm_num) (by decide)⟩

/-- Decoding the decimal rendering recovers each candidate octet (the
meaning of `int(x.split('.')[-1])` for the generated addresses). -/
theorem decode_repr_octets : ∀ i ∈ List.range' 1 254, decodeDigits (Nat.repr i) = i := by
  decide

/-- Rendering `f"{net}.{i}"` is injective on the candidate octets. -/
theorem ipStr_inj_on_octets (net : String) (i j : Nat)
    (hi : i ∈ hostOctets) (hj : j ∈ hostOctets) (h : ipStr net i = ipStr net j) :
    i = j := by
  have hr : Nat.repr i = Nat.repr j := by
    apply String.ext
    have h2 := congrArg String.data h
    simp only [ipStr, String.data_append] at h2
    exact List.append_cancel_left h2
  have di := decode_repr_octets i hi
  have dj := decode_repr_octets j hj
  rw [← di, ← dj, hr]

/-- Every octet surviving the sweep came from the candidate range. -/
theorem scan_networkOctets_mem (env : NetEnv) (net : String) (timeout : ℚ)
    (order : List Nat) (hperm : order.Perm hostOctets) (i : Nat)
    (hi : i ∈ scan_networkOctets env net timeout order) : i ∈ hostOctets := by
  unfold scan_networkOctets at hi
  rw [List.mem_insertionSort] at hi
  exact hperm.mem_iff.mp (List.mem_of_mem_filter hi)

/-- C8: the list `scan_network` returns is sorted in ascending numeric
order of the final octet regardless of the nondeterministic completion
order of the concurrent per-host probes: the underlying octet list is
`≤`-sorted, the returned strings are its pointwise rendering, and every
completion order (a permutation of the candidate octets) produces the
same returned list. -/
theorem scan_network_sorted (env : NetEnv) (net : String) (timeout : ℚ)
    (order : List Nat) (hperm : order.Perm hostOctets) :
    List.Sorted (fun a b => a ≤ b) (scan_networkOctets env net timeout order) ∧
    scan_network env net timeout order =
      (scan_networkOctets env net timeout order).map (ipStr net) ∧
    scan_network env net timeout order = scan_network env net timeout hostOctets := by
  refine ⟨List.sorted_insertionSort _ _, rfl, ?_⟩
  unfold scan_network
  have hoct : scan_networkOctets env net timeout order =
      scan_networkOctets env net timeout hostOctets := by
    unfold scan_networkOctets
    refine List.eq_of_perm_of_sorted ?_ (List.sorted_insertionSort _ _)
      (List.sorted_insertionSort _ _)
    exact (List.perm_insertionSort _ _).trans
      ((hperm.filter _).trans (List.perm_insertionSort _ _).symm)
  rw [hoct]

/-- Witness for C8 at a concrete all-open environment, completion order
equal to the candidate order. -/
theorem scan_network_sorted_witness :
    List.Perm hostOctets hostOctets ∧
    (List.Sorted (fun a b => a ≤ b)
      (scan_networkOctets (NetEnv.mk (fun _ => HostEnv.mk false (fun _ => RawConnect.code 0)))
        "192.168.1" 1 hostOctets) ∧
    scan_network (NetEnv.mk (fun _ => HostEnv.mk false (fun _ => RawConnect.code 0)))
        "192.168.1" 1 hostOctets =
      (scan_networkOctets (NetEnv.mk (fun _ => HostEnv.mk false (fun _ => RawConnect.code 0)))
        "192.168.1" 1 hostOctets).map (ipStr "192.168.1") ∧
    scan_network (NetEnv.mk (fun _ => HostEnv.mk false (fun _ => RawConnect.code 0)))
        "192.168.1" 1 hostOctets =
      scan_network (NetEnv.mk (fun _ => HostEnv.mk false (fun _ => RawConnect.code 0)))
        "192.168.1" 1 hostOctets) :=
  ⟨List.Perm.refl _,
    scan_network_sorted (NetEnv.mk (fun _ => HostEnv.mk false (fun _ => RawConnect.code 0)))
      "192.168.1" 1 hostOctets (List.Perm.refl _)⟩

/-- C9: the candidate set enumerated by `scan_network` is exactly the 254
last octets 1 .. 254 (network `.0` and broadcast `.255` excluded); every
address in the returned live-host list is the rendering of a candidate
octet; and no address appears in the result more than once. -/
theorem scan_network_candidates (env : NetEnv) (net : String) (timeout : ℚ)
    (order : List Nat) (hperm : order.Perm hostOctets) :
    hostOctets.length = 254 ∧
    (∀ i : Nat, i ∈ hostOctets ↔ 1 ≤ i ∧ i ≤ 254) ∧
    (∀ s ∈ scan_network env net timeout order, ∃ i ∈ hostOctets, s = ipStr net i) ∧
    (scan_network env net timeout order).Nodup := by
  refine ⟨by simp [hostOctets], ?_, ?_, ?_⟩
  · intro i
    rw [hostOctets, List.mem_range'_1]
    omega
  · intro s hs
    unfold scan_network at hs
    rcases List.mem_map.mp hs with ⟨i, hi, rfl⟩
    exact ⟨i, scan_networkOctets_mem env net timeout order hperm i hi, rfl⟩
  · have hnd0 : hostOctets.Nodup := List.nodup_range' 1 254 1 (by norm_num)
    have hnd1 : order.Nodup := hperm.nodup_iff.mpr hnd0
    have hnd3 : (scan_networkOctets env net timeout order).Nodup := by
      unfold scan_networkOctets
      exact (List.perm_insertionSort _ _).nodup_iff.mpr (hnd1.filter _)
    unfold scan_network
    refine List.Nodup.map_on ?_ hnd3
    intro i hi j hj hij
    exact ipStr_inj_on_octets net i j
      (scan_networkOctets_mem env net timeout order hperm i hi)
      (scan_networkOctets_mem env net timeout order hperm j hj) hij

/-- Witness for C9 at the same concrete all-open environment. -/
theorem scan_network_candidates_witness :
    List.Perm hostOctets hostOctets ∧
    (hostOctets.length = 254 ∧
    (∀ i : Nat, i ∈ hostOctets ↔ 1 ≤ i ∧ i ≤ 254) ∧
    (∀ s ∈ scan_network (NetEnv.mk (fun _ => HostEnv.mk false (fun _ => RawConnect.code 0)))
        "10.0.0" 1 hostOctets, ∃ i ∈ hostOctets, s = ipStr "10.0.0" i) ∧
    (scan_network (NetEnv.mk (fun _ => HostEnv.mk false (fun _ => RawConnect.code 0)))
      "10.0.0" 1 hostOctets).Nodup) :=
  ⟨List.Perm.refl _,
    scan_network_candidates (NetEnv.mk (fun _ => HostEnv.mk false (fun _ => RawConnect.code 0)))
      "10.0.0" 1 hostOctets (List.Perm.refl _)⟩

end NetScan
